import Mathlib

/-!
Verification of the wedding RSVP worker (`src/worker/src/index.ts`).

Strings are modelled as `List Char` (JavaScript strings viewed as character
sequences).  Fixed time (`Date.now`), the request IP and the HMAC primitive
(`crypto.subtle`, a platform builtin) are passed to the embedded functions as
explicit arguments.  Database tables are modelled as lists of rows.
-/

namespace Wedding

/-- Converts a Lean string literal to the `List Char` string model. -/
def str (s : String) : List Char := s.data

/-- The characters of the JavaScript regex class `\s` (also the set removed by
`String.prototype.trim`), except the contiguous range U+2000–U+200A which is
tested separately in `jsIsSpace`. -/
def jsWhitespaceChars : List Char :=
  [Char.ofNat 9, Char.ofNat 10, Char.ofNat 11, Char.ofNat 12, Char.ofNat 13,
   Char.ofNat 32, Char.ofNat 0xA0, Char.ofNat 0x1680, Char.ofNat 0x2028,
   Char.ofNat 0x2029, Char.ofNat 0x202F, Char.ofNat 0x205F, Char.ofNat 0x3000,
   Char.ofNat 0xFEFF]

/-- Membership in the JavaScript whitespace class `\s`. -/
def jsIsSpace (c : Char) : Bool :=
  jsWhitespaceChars.contains c || (decide (0x2000 ≤ c.toNat) && decide (c.toNat ≤ 0x200A))

/-- Model of `String.prototype.trim`: drop leading and trailing whitespace. -/
def trimStr (l : List Char) : List Char :=
  ((l.dropWhile jsIsSpace).reverse.dropWhile jsIsSpace).reverse

/-- The replacement `.replace(/\s+/g, " ")`: each maximal run of whitespace
characters becomes a single space. -/
def collapseWs : List Char → List Char
  | [] => []
  | c :: cs =>
    if jsIsSpace c then ' ' :: collapseWs (cs.dropWhile jsIsSpace)
    else c :: collapseWs cs
termination_by l => l.length
decreasing_by
  · exact Nat.lt_succ_of_le (List.dropWhile_sublist jsIsSpace (l := cs)).length_le
  · simp

/-- The character class kept by `.replace(/[^\p{L}\p{N}\s]/gu, "")` (letters and
digits); the embedding uses the ASCII fragment of the Unicode classes
`\p{L}\p{N}`, which is also the fragment on which Lean's `Char.toLower` agrees
with `String.prototype.toLowerCase`. -/
def jsKeep (c : Char) : Bool := c.isAlphanum

/-- Function `normalizeName` from the worker: trim, lowercase, drop every character that
is not a letter, digit or whitespace, then collapse whitespace runs to single
spaces. -/
def normalizeName (l : List Char) : List Char :=
  collapseWs (((trimStr l).map Char.toLower).filter (fun c => jsKeep c || jsIsSpace c))

/-- Function `timingSafeEqual` from the worker: equal lengths, then OR together the XOR
of every character pair and compare the accumulator with zero. -/
def timingSafeEqual (a b : List Char) : Bool :=
  a.length == b.length &&
    ((a.zip b).foldl (fun out p => out ||| (p.1.toNat ^^^ p.2.toNat)) 0) == 0

/-! ## Base64url

`b64url` in the worker is `btoa` (standard base64) followed by the
replacements `+`→`-`, `/`→`_` and stripping of `=` padding; `verifyJWT`
inverts the replacements and calls `atob`.  The embedding composes these
steps into a direct unpadded base64url codec over byte lists. -/

/-- The base64url alphabet (the standard alphabet after the `+`→`-`, `/`→`_`
replacements performed by `b64url`). -/
def b64Alphabet : List Char :=
  str "ABCDEFGHIJKLMNOPQRSTUVWXYZabcdefghijklmnopqrstuvwxyz0123456789-_"

/-- The character for a 6-bit group. -/
def encB64 (n : Nat) : Char := b64Alphabet.getD n '?'

/-- The 6-bit value of a base64url character. -/
def decB64 (c : Char) : Nat := b64Alphabet.indexOf c

/-- Unpadded base64url encoding of a byte list. -/
def b64urlEncode : List Nat → List Char
  | [] => []
  | [a] => [encB64 (a / 4), encB64 (a % 4 * 16)]
  | [a, b] => [encB64 (a / 4), encB64 (a % 4 * 16 + b / 16), encB64 (b % 16 * 4)]
  | a :: b :: c :: rest =>
    encB64 (a / 4) :: encB64 (a % 4 * 16 + b / 16) :: encB64 (b % 16 * 4 + c / 64) ::
      encB64 (c % 64) :: b64urlEncode rest

/-- Unpadded base64url decoding (`atob` after the inverse replacements);
inputs of invalid length drop the trailing fragment. -/
def b64urlDecode : List Char → List Nat
  | [] => []
  | [_] => []
  | [c1, c2] => [decB64 c1 * 4 + decB64 c2 / 16]
  | [c1, c2, c3] =>
    [decB64 c1 * 4 + decB64 c2 / 16, decB64 c2 % 16 * 16 + decB64 c3 / 4]
  | c1 :: c2 :: c3 :: c4 :: rest =>
    (decB64 c1 * 4 + decB64 c2 / 16) :: (decB64 c2 % 16 * 16 + decB64 c3 / 4) ::
      (decB64 c3 % 4 * 64 + decB64 c4) :: b64urlDecode rest

/-! ## UTF-8 (`TextEncoder` / `TextDecoder`) -/

/-- UTF-8 encoding of one code point. -/
def utf8EncodeChar (n : Nat) : List Nat :=
  if n < 0x80 then [n]
  else if n < 0x800 then [0xC0 + n / 64, 0x80 + n % 64]
  else if n < 0x10000 then [0xE0 + n / 4096, 0x80 + n / 64 % 64, 0x80 + n % 64]
  else [0xF0 + n / 262144, 0x80 + n / 4096 % 64, 0x80 + n / 64 % 64, 0x80 + n % 64]

/-- Model of `new TextEncoder().encode(s)`: UTF-8 bytes of a string. -/
def utf8Encode (l : List Char) : List Nat :=
  (l.map (fun c => utf8EncodeChar c.toNat)).flatten

/-- Model of `new TextDecoder().decode(bytes)`: UTF-8 decoding by leading-byte range;
truncated ill-formed suffixes are dropped (they never arise on the encodings
produced by `utf8Encode`). -/
def utf8Decode : List Nat → List Char
  | [] => []
  | b :: rest =>
    if b < 0x80 then Char.ofNat b :: utf8Decode rest
    else if b < 0xE0 then
      if 1 ≤ rest.length then
        Char.ofNat ((b - 0xC0) * 64 + (rest.getD 0 0 - 0x80)) :: utf8Decode (rest.drop 1)
      else []
    else if b < 0xF0 then
      if 2 ≤ rest.length then
        Char.ofNat ((b - 0xE0) * 4096 + (rest.getD 0 0 - 0x80) * 64 + (rest.getD 1 0 - 0x80))
          :: utf8Decode (rest.drop 2)
      else []
    else
      if 3 ≤ rest.length then
        Char.ofNat ((b - 0xF0) * 262144 + (rest.getD 0 0 - 0x80) * 4096 +
          (rest.getD 1 0 - 0x80) * 64 + (rest.getD 2 0 - 0x80)) :: utf8Decode (rest.drop 3)
      else []
termination_by l => l.length
decreasing_by
  · simp
  · simp [List.length_drop]
    omega
  · simp [List.length_drop]
    omega
  · simp [List.length_drop]
    omega

/-! ## JSON (the fragment used by the worker)

`signJWT` serializes flat objects whose values are strings or non-negative
integers (`JSON.stringify`), and `verifyJWT` parses the payload segment back
(`JSON.parse`).  The embedding implements that fragment: `JSON.stringify`'s
two-character escapes are produced and parsed; `\uXXXX` escapes for the rare
control characters below U+0020 are parsed but never produced, and theorems
about serialized objects exclude those characters by hypothesis. -/

/-- JSON values of the fragment used by the worker's JWT payloads. -/
inductive JVal where
  | jstr : List Char → JVal
  | jnum : Nat → JVal
deriving DecidableEq

/-- A character that `JSON.stringify` renders either literally or with one of
its two-character escapes (everything except the control characters that need
a `\uXXXX` escape). -/
def jsonSafeChar (c : Char) : Bool :=
  decide (32 ≤ c.toNat) || c.toNat == 8 || c.toNat == 9 || c.toNat == 10 ||
    c.toNat == 12 || c.toNat == 13

/-- All characters of a string are `jsonSafeChar`. -/
def jsonSafeStr (l : List Char) : Bool := l.all jsonSafeChar

/-- All keys and string values of a flat object consist of `jsonSafeChar`
characters (the domain on which the embedded serializer agrees with
`JSON.stringify`). -/
def jsonSafeObj (kvs : List (List Char × JVal)) : Bool :=
  kvs.all (fun kv => jsonSafeStr kv.1 &&
    (match kv.2 with
     | JVal.jstr s => jsonSafeStr s
     | JVal.jnum _ => true))

/-- Escaping performed by `JSON.stringify` on one character. -/
def escapeChar (c : Char) : List Char :=
  if c = '"' then ['\\', '"']
  else if c = '\\' then ['\\', '\\']
  else if c = Char.ofNat 8 then ['\\', 'b']
  else if c = Char.ofNat 9 then ['\\', 't']
  else if c = Char.ofNat 10 then ['\\', 'n']
  else if c = Char.ofNat 12 then ['\\', 'f']
  else if c = Char.ofNat 13 then ['\\', 'r']
  else [c]

/-- Escaping performed by `JSON.stringify` on a string body. -/
def escapeStr (l : List Char) : List Char := (l.map escapeChar).flatten

/-- A serialized JSON string literal. -/
def serStr (l : List Char) : List Char := '"' :: (escapeStr l ++ ['"'])

/-- Decimal digits of a natural number (how `JSON.stringify` and JavaScript
template literals render a non-negative integer). -/
def natDigits (n : Nat) : List Char :=
  if n < 10 then [Char.ofNat (48 + n)]
  else natDigits (n / 10) ++ [Char.ofNat (48 + n % 10)]
termination_by n
decreasing_by exact Nat.div_lt_self (by omega) (by omega)

/-- Serialization of a JSON value. -/
def serVal : JVal → List Char
  | .jstr s => serStr s
  | .jnum n => natDigits n

/-- Serialization of one `key:value` object entry. -/
def serPair (kv : List Char × JVal) : List Char := serStr kv.1 ++ ':' :: serVal kv.2

/-- Comma-separated serialization of the entries of an object. -/
def serPairs : List (List Char × JVal) → List Char
  | [] => []
  | [kv] => serPair kv
  | kv :: rest => serPair kv ++ ',' :: serPairs rest

/-- Serialization of a flat object as by `JSON.stringify`. -/
def serObj (kvs : List (List Char × JVal)) : List Char :=
  Char.ofNat 123 :: (serPairs kvs ++ [Char.ofNat 125])

/-- Value of a hexadecimal digit character. -/
def hexVal (c : Char) : Nat :=
  if c.isDigit then c.toNat - 48
  else if 97 ≤ c.toNat ∧ c.toNat ≤ 102 then c.toNat - 87
  else if 65 ≤ c.toNat ∧ c.toNat ≤ 70 then c.toNat - 55
  else 0

/-- Inverse of the two-character escapes of `JSON.stringify`. -/
def unescapeChar (e : Char) : Char :=
  if e = 'b' then Char.ofNat 8
  else if e = 't' then Char.ofNat 9
  else if e = 'n' then Char.ofNat 10
  else if e = 'f' then Char.ofNat 12
  else if e = 'r' then Char.ofNat 13
  else e

/-- Parses a JSON string body up to its closing quote, returning the decoded
string and the rest of the input. -/
def parseStrBody : List Char → Option (List Char × List Char)
  | [] => none
  | '"' :: rest => some ([], rest)
  | '\\' :: 'u' :: h1 :: h2 :: h3 :: h4 :: rest =>
    (parseStrBody rest).map (fun p =>
      (Char.ofNat (hexVal h1 * 4096 + hexVal h2 * 256 + hexVal h3 * 16 + hexVal h4) :: p.1, p.2))
  | '\\' :: e :: rest =>
    (parseStrBody rest).map (fun p => (unescapeChar e :: p.1, p.2))
  | c :: rest => (parseStrBody rest).map (fun p => (c :: p.1, p.2))

/-- Parses the leading decimal digits into a natural number. -/
def parseNat (l : List Char) : Option (Nat × List Char) :=
  if l.takeWhile Char.isDigit = [] then none
  else some ((l.takeWhile Char.isDigit).foldl (fun a c => a * 10 + (c.toNat - 48)) 0,
    l.dropWhile Char.isDigit)

/-- Parses a JSON value of the fragment (string or non-negative integer). -/
def parseVal (l : List Char) : Option (JVal × List Char) :=
  match l with
  | c :: rest =>
    if c = '"' then (parseStrBody rest).map (fun p => (JVal.jstr p.1, p.2))
    else (parseNat (c :: rest)).map (fun p => (JVal.jnum p.1, p.2))
  | [] => none

/-- Parses the comma-separated entries of a non-empty object followed by the
closing brace; `fuel` bounds the number of entries. -/
def parsePairs : Nat → List Char → Option (List (List Char × JVal) × List Char)
  | 0, _ => none
  | Nat.succ fuel, l =>
    match l with
    | c0 :: rest =>
      if c0 = '"' then
        match parseStrBody rest with
        | none => none
        | some (k, r1) =>
          match r1 with
          | c1 :: r2 =>
            if c1 = ':' then
              match parseVal r2 with
              | none => none
              | some (v, r3) =>
                match r3 with
                | c2 :: r4 =>
                  if c2 = ',' then (parsePairs fuel r4).map (fun p => ((k, v) :: p.1, p.2))
                  else if c2 = Char.ofNat 125 then some ([(k, v)], r4) else none
                | [] => none
            else none
          | [] => none
      else none
    | [] => none

/-- Model of `JSON.parse` on the fragment: a whole input that is one non-empty flat
object (the only shape the worker's `verifyJWT` ever parses successfully on
tokens produced by `signJWT`; on other inputs the source would throw, which
the embedding renders as `none`). -/
def parseObj (l : List Char) : Option (List (List Char × JVal)) :=
  match l with
  | c :: rest =>
    if c = Char.ofNat 123 then
      match parsePairs rest.length rest with
      | some (kvs, []) => some kvs
      | _ => none
    else none
  | [] => none

/-- JavaScript property access on a parsed JSON object (later duplicate keys
override earlier ones, as in `JSON.parse`). -/
def getProp (k : List Char) (kvs : List (List Char × JVal)) : Option JVal :=
  (kvs.reverse.find? (fun kv => kv.1 == k)).map (fun kv => kv.2)

/-! ## The JWT service (`signJWT` / `verifyJWT`)

`hmacSha256` is a platform primitive (`crypto.subtle`); the embedding passes
it as an explicit argument `mac : List Char → List Char → List Nat` mapping a
secret and a message to the signature bytes.  `Math.floor(Date.now() / 1000)`
is passed as the explicit argument `iat` (at signing) and `now` (at
verification). -/

/-- The fixed JWT header object `\x7b alg: "HS256", typ: "JWT" \x7d`. -/
def jwtHeader : List (List Char × JVal) :=
  [(str "alg", JVal.jstr (str "HS256")), (str "typ", JVal.jstr (str "JWT"))]

/-- Function `b64urlJson`: base64url of the UTF-8 bytes of a serialized object. -/
def b64urlJson (kvs : List (List Char × JVal)) : List Char :=
  b64urlEncode (utf8Encode (serObj kvs))

/-- The payload signed by `signJWT`: the caller's claims spread first, then
`iat` and `exp = iat + expiresSeconds`. -/
def fullPayload (claims : List (List Char × JVal)) (iat ttl : Nat) :
    List (List Char × JVal) :=
  claims ++ [(str "iat", JVal.jnum iat), (str "exp", JVal.jnum (iat + ttl))]

/-- Function `signJWT secret payload expiresSeconds` (with the clock and the HMAC
primitive passed explicitly): `header.payload.signature`. -/
def signJWT (mac : List Char → List Char → List Nat) (secret : List Char)
    (claims : List (List Char × JVal)) (ttl iat : Nat) : List Char :=
  let part1 := b64urlJson jwtHeader
  let part2 := b64urlJson (fullPayload claims iat ttl)
  let toSign := part1 ++ '.' :: part2
  toSign ++ '.' :: b64urlEncode (mac secret toSign)

/-- Model of `token.split(".")`. -/
def splitOnDot : List Char → List (List Char)
  | [] => [[]]
  | c :: rest =>
    match splitOnDot rest with
    | [] => [[c]]
    | s :: ss => if c = '.' then [] :: s :: ss else (c :: s) :: ss

/-- Function `verifyJWT secret token` (clock and HMAC explicit): exactly three dot
segments, constant-time signature comparison, payload parse, then reject when
`exp` is missing, not a number, or `exp < now`. -/
def verifyJWT (mac : List Char → List Char → List Nat) (secret token : List Char)
    (now : Nat) : Option (List (List Char × JVal)) :=
  match splitOnDot token with
  | [p1, p2, sig] =>
    let toVerify := p1 ++ '.' :: p2
    let expected := b64urlEncode (mac secret toVerify)
    if timingSafeEqual expected sig then
      match parseObj (utf8Decode (b64urlDecode p2)) with
      | none => none
      | some payload =>
        match getProp (str "exp") payload with
        | some (JVal.jnum e) => if e < now then none else some payload
        | _ => none
    else none
  | _ => none

/-! ## Authorization header, admin login and the admin route guard -/

/-- JavaScript line terminators (not matched by `.` in a regex). -/
def isLineTerm (c : Char) : Bool :=
  c.toNat == 10 || c.toNat == 13 || c.toNat == 0x2028 || c.toNat == 0x2029

/-- Function `getBearer`: the match of `/^Bearer\s+(.+)$/i` against the Authorization
header.  The captured group is the remainder after the maximal whitespace run
(by greedy matching with backtracking it degenerates to the final whitespace
character when nothing follows the run), and must contain no line
terminator. -/
def getBearer (h : List Char) : Option (List Char) :=
  match h with
  | b :: e :: a :: r1 :: e2 :: r2 :: rest =>
    if [b, e, a, r1, e2, r2].map Char.toLower = str "bearer" ∧ rest ≠ [] ∧
        jsIsSpace (rest.headD ' ') then
      let g := rest.dropWhile jsIsSpace
      if g = [] then
        if isLineTerm (rest.getLastD ' ') then none else some [rest.getLastD ' ']
      else if g.any isLineTerm then none else some g
    else none
  | _ => none

/-- Function `requireAdmin`: bearer token extraction, JWT verification, then the
caller's claim equality test `payload.role === "admin"`.  The Authorization
header is `none` when absent. -/
def requireAdmin (mac : List Char → List Char → List Nat) (secret : List Char)
    (authHeader : Option (List Char)) (now : Nat) :
    Option (List (List Char × JVal)) :=
  match getBearer (authHeader.getD []) with
  | none => none
  | some tok =>
    match verifyJWT mac secret tok now with
    | none => none
    | some payload =>
      if getProp (str "role") payload = some (JVal.jstr (str "admin")) then some payload
      else none

/-- JSON response bodies of the worker, as far as the claims need them. -/
inductive Body where
  | ok
  | token : List Char → Body
  | errMsg : List Char → Body
deriving DecidableEq

/-- An HTTP response before the CORS wrapper: status and JSON body. -/
structure Resp where
  status : Nat
  body : Body
deriving DecidableEq

/-- The `POST /admin/login` handler.  `sha` is the platform's SHA-256 hex
digest (`sha256Hex`), passed explicitly; `salt` and `hash` are
`ADMIN_PASSWORD_SALT` and `ADMIN_PASSWORD_HASH`. -/
def handleAdminLogin (sha : List Char → List Char)
    (mac : List Char → List Char → List Nat) (salt hash secret : List Char)
    (password : List Char) (now : Nat) : Resp :=
  if password = [] then ⟨400, Body.errMsg (str "Password required.")⟩
  else if timingSafeEqual (sha (salt ++ password)) hash then
    ⟨200, Body.token (signJWT mac secret [(str "role", JVal.jstr (str "admin"))] 21600 now)⟩
  else ⟨401, Body.errMsg (str "Invalid password.")⟩

/-- The 401 response shared by all three protected `/admin/invites` routes. -/
def unauthorizedResp : Resp := ⟨401, Body.errMsg (str "Unauthorized")⟩

/-- The guard step run first by each protected admin route: `some` 401 response when
`requireAdmin` fails, `none` (continue) otherwise. -/
def adminAuthCheck (mac : List Char → List Char → List Nat) (secret : List Char)
    (authHeader : Option (List Char)) (now : Nat) : Option Resp :=
  match requireAdmin mac secret authHeader now with
  | none => some unauthorizedResp
  | some _ => none

/-! ## CORS wrapper and the top-level catch -/

/-- Model of `corsHeaders(origin)`. -/
def corsHeaders (origin : List Char) : List (List Char × List Char) :=
  [(str "Access-Control-Allow-Origin", origin),
   (str "Access-Control-Allow-Methods", str "GET,POST,DELETE,OPTIONS"),
   (str "Access-Control-Allow-Headers", str "Content-Type, Authorization")]

/-- Evaluation of `origin && origin === env.SITE_ORIGIN ? origin : env.SITE_ORIGIN` where
`origin` is the request's Origin header (`none` when absent, falsy when
empty). -/
def allowedOrigin (origin : Option (List Char)) (siteOrigin : List Char) : List Char :=
  match origin with
  | some o => if o ≠ [] ∧ o = siteOrigin then o else siteOrigin
  | none => siteOrigin

/-- A response together with its headers. -/
structure HResp where
  status : Nat
  body : Body
  headers : List (List Char × List Char)
deriving DecidableEq

/-- The `Content-Type: application/json` header set by `json(...)`. -/
def contentTypeHeader : List Char × List Char :=
  (str "Content-Type", str "application/json")

/-- Function `withCors`: a handler response with the JSON content type and the CORS
headers for the allowed origin. -/
def withCors (origin : Option (List Char)) (siteOrigin : List Char) (r : Resp) : HResp :=
  ⟨r.status, r.body, contentTypeHeader :: corsHeaders (allowedOrigin origin siteOrigin)⟩

/-- The top-level `catch`: a 500 response whose body is
`\x7b error: e?.message || "Server error" \x7d` (the exception's message is
`none` when absent and falsy when empty) with the JSON content type and
`corsHeaders(env.SITE_ORIGIN)`. -/
def catchResponse (siteOrigin : List Char) (exMsg : Option (List Char)) : HResp :=
  ⟨500,
   Body.errMsg (match exMsg with
     | some m => if m = [] then str "Server error" else m
     | none => str "Server error"),
   contentTypeHeader :: corsHeaders siteOrigin⟩

/-! ## The store and the `POST /public/rsvp` handler -/

/-- A row of the `invites` table. -/
structure InviteRow where
  id : List Char
  display_name : List Char
  norm_name : List Char
  allowed_guests : Nat
  message : Option (List Char)
  created_at : List Char
deriving DecidableEq

/-- A row of the `rsvps` table (`invite_id` is the primary key). -/
structure RsvpRow where
  invite_id : List Char
  primary_name : List Char
  attending : Bool
  extra_guest_names : List (List Char)
  notes : Option (List Char)
  submitted_at : List Char
  ip : Option (List Char)
deriving DecidableEq

/-- The two tables of the D1 database. -/
structure DB where
  invites : List InviteRow
  rsvps : List RsvpRow
deriving DecidableEq

/-- The request body of `POST /public/rsvp` after the coercions at the top of
the handler (`String(...)` on each name, `Boolean(...)` on the flag; a
non-array `extraGuestNames` coerces to `[]`). -/
structure RsvpReq where
  inviteId : List Char
  primaryName : List Char
  attending : Bool
  extraGuestNames : List (List Char)
  notes : List Char
deriving DecidableEq

/-- Model of `extraGuestNames.map(x => String(x || "").trim()).filter(Boolean)`. -/
def filteredGuests (req : RsvpReq) : List (List Char) :=
  (req.extraGuestNames.map trimStr).filter (fun s => !s.isEmpty)

/-- Model of `String(body?.notes || "").trim() || null`. -/
def notesOf (req : RsvpReq) : Option (List Char) :=
  if trimStr req.notes = [] then none else some (trimStr req.notes)

/-- The 400 message naming the invite's allowed extra guest count. -/
def allowMsg (n : Nat) : List Char :=
  str "This invite allows up to " ++ natDigits n ++ str " additional guest(s)."

/-- Model of `INSERT INTO rsvps ... ON CONFLICT(invite_id) DO UPDATE SET ...`: replace
the row for the invite when present, append it otherwise. -/
def upsertRsvp (rs : List RsvpRow) (row : RsvpRow) : List RsvpRow :=
  if rs.any (fun r => r.invite_id == row.invite_id) then
    rs.map (fun r => if r.invite_id == row.invite_id then row else r)
  else rs ++ [row]

/-- The row written by an accepted RSVP submission. -/
def rsvpRowOf (req : RsvpReq) (submittedAt : List Char) (ip : Option (List Char)) :
    RsvpRow :=
  ⟨req.inviteId, trimStr req.primaryName, req.attending, filteredGuests req,
   notesOf req, submittedAt, ip⟩

/-- The `POST /public/rsvp` handler: required-field check, invite lookup,
extra-guest bound (only when attending), then the upsert.  `submittedAt`
(`new Date().toISOString()`) and `ip` (`CF-Connecting-IP`) are explicit
arguments; the notification send does not touch the store. -/
def handleRsvp (db : DB) (req : RsvpReq) (submittedAt : List Char)
    (ip : Option (List Char)) : Resp × DB :=
  if req.inviteId = [] ∨ trimStr req.primaryName = [] then
    (⟨400, Body.errMsg (str "Missing required fields.")⟩, db)
  else
    match db.invites.find? (fun i => i.id == req.inviteId) with
    | none => (⟨404, Body.errMsg (str "Invite not found.")⟩, db)
    | some inv =>
      if req.attending ∧ inv.allowed_guests < (filteredGuests req).length then
        (⟨400, Body.errMsg (allowMsg inv.allowed_guests)⟩, db)
      else
        (⟨200, Body.ok⟩, ⟨db.invites, upsertRsvp db.rsvps (rsvpRowOf req submittedAt ip)⟩)

/-! ## Lemmas about `timingSafeEqual` -/

theorem nat_or_eq_zero (a b : Nat) : a ||| b = 0 ↔ a = 0 ∧ b = 0 := by
  constructor
  · intro h
    have key : ∀ i, a.testBit i = false ∧ b.testBit i = false := by
      intro i
      have h2 := congrArg (fun n => Nat.testBit n i) h
      simpa [Nat.testBit_lor, Nat.zero_testBit] using h2
    constructor
    · exact Nat.eq_of_testBit_eq (fun i => by simp [(key i).1, Nat.zero_testBit])
    · exact Nat.eq_of_testBit_eq (fun i => by simp [(key i).2, Nat.zero_testBit])
  · rintro ⟨rfl, rfl⟩
    rfl

theorem foldl_or_xor_eq_zero (l : List (Char × Char)) (acc : Nat) :
    (l.foldl (fun out p => out ||| (p.1.toNat ^^^ p.2.toNat)) acc = 0) ↔
      (acc = 0 ∧ ∀ p ∈ l, p.1 = p.2) := by
  induction l generalizing acc with
  | nil => simp
  | cons x xs ih =>
    rw [List.foldl_cons, ih, nat_or_eq_zero, Nat.xor_eq_zero]
    constructor
    · rintro ⟨⟨hacc, hx⟩, hxs⟩
      refine ⟨hacc, fun p hp => ?_⟩
      rcases List.mem_cons.mp hp with rfl | hp
      · exact Char.ofNat_toNat p.1 ▸ Char.ofNat_toNat p.2 ▸ congrArg Char.ofNat hx
      · exact hxs p hp
    · rintro ⟨hacc, hall⟩
      refine ⟨⟨hacc, ?_⟩, fun p hp => hall p (List.mem_cons_of_mem _ hp)⟩
      rw [hall x (List.mem_cons_self x xs)]

theorem eq_of_length_eq_of_zip (a b : List Char) (hlen : a.length = b.length)
    (hall : ∀ p ∈ a.zip b, p.1 = p.2) : a = b := by
  induction a generalizing b with
  | nil => cases b with
    | nil => rfl
    | cons y ys => simp at hlen
  | cons x xs ih =>
    cases b with
    | nil => simp at hlen
    | cons y ys =>
      have hx : x = y := hall (x, y) (by simp [List.zip_cons_cons])
      have hxs : xs = ys := by
        refine ih ys (by simpa using hlen) (fun p hp => hall p ?_)
        simp [List.zip_cons_cons, hp]
      rw [hx, hxs]

theorem mem_zip_self (l : List Char) (p : Char × Char) (hp : p ∈ l.zip l) : p.1 = p.2 := by
  induction l with
  | nil => simp at hp
  | cons x xs ih =>
    rw [List.zip_cons_cons, List.mem_cons] at hp
    rcases hp with rfl | hp
    · rfl
    · exact ih hp

theorem timingSafeEqual_iff (a b : List Char) : timingSafeEqual a b = true ↔ a = b := by
  unfold timingSafeEqual
  rw [Bool.and_eq_true, beq_iff_eq, beq_iff_eq, foldl_or_xor_eq_zero]
  constructor
  · rintro ⟨hlen, -, hall⟩
    exact eq_of_length_eq_of_zip a b hlen hall
  · rintro rfl
    exact ⟨rfl, rfl, mem_zip_self a⟩

/-! ## Lemmas about the RSVP upsert and handler -/

theorem upsert_mem_key (rs : List RsvpRow) (row r : RsvpRow)
    (hr : r ∈ upsertRsvp rs row) (hk : r.invite_id = row.invite_id) : r = row := by
  unfold upsertRsvp at hr
  split at hr
  · obtain ⟨x, hx, hfx⟩ := List.mem_map.mp hr
    by_cases h : (x.invite_id == row.invite_id) = true
    · rw [if_pos h] at hfx
      exact hfx.symm
    · rw [if_neg h] at hfx
      exact absurd (beq_iff_eq.mpr (hfx ▸ hk)) h
  · rename_i hany
    rcases List.mem_append.mp hr with h | h
    · exfalso
      apply hany
      refine List.any_eq_true.mpr ⟨r, h, ?_⟩
      exact beq_iff_eq.mpr hk
    · simpa using h

theorem filter_map_upsert (rs : List RsvpRow) (row : RsvpRow) :
    ((rs.map (fun r => if r.invite_id == row.invite_id then row else r)).filter
        (fun r => r.invite_id == row.invite_id)) =
      List.replicate ((rs.filter (fun r => r.invite_id == row.invite_id)).length) row := by
  induction rs with
  | nil => rfl
  | cons x xs ih =>
    by_cases h : x.invite_id = row.invite_id
    · simpa [List.filter_cons, h, List.replicate_succ] using ih
    · simpa [List.filter_cons, h] using ih

theorem upsert_filter (rs : List RsvpRow) (row : RsvpRow)
    (h : (rs.filter (fun r => r.invite_id == row.invite_id)).length ≤ 1) :
    (upsertRsvp rs row).filter (fun r => r.invite_id == row.invite_id) = [row] := by
  unfold upsertRsvp
  split
  · rename_i hany
    rw [filter_map_upsert]
    obtain ⟨r, hr, hkey⟩ := List.any_eq_true.mp hany
    have hmem : r ∈ rs.filter (fun r => r.invite_id == row.invite_id) :=
      List.mem_filter.mpr ⟨hr, hkey⟩
    have h1 : 1 ≤ (rs.filter (fun r => r.invite_id == row.invite_id)).length :=
      List.length_pos.mpr (List.ne_nil_of_mem hmem)
    rw [Nat.le_antisymm h h1]
    rfl
  · rename_i hany
    have hnil : rs.filter (fun r => r.invite_id == row.invite_id) = [] := by
      rw [List.filter_eq_nil_iff]
      intro r hr hkey
      exact hany (List.any_eq_true.mpr ⟨r, hr, hkey⟩)
    rw [List.filter_append, hnil]
    simp

theorem handleRsvp_ok (db : DB) (req : RsvpReq) (t : List Char) (ip : Option (List Char))
    (h : (handleRsvp db req t ip).1.status = 200) :
    ∃ inv, db.invites.find? (fun i => i.id == req.inviteId) = some inv ∧
      ¬(req.attending = true ∧ inv.allowed_guests < (filteredGuests req).length) ∧
      (handleRsvp db req t ip).2.rsvps = upsertRsvp db.rsvps (rsvpRowOf req t ip) := by
  by_cases h1 : req.inviteId = [] ∨ trimStr req.primaryName = []
  · simp [handleRsvp, h1] at h
  · cases hfind : db.invites.find? (fun i => i.id == req.inviteId) with
    | none => simp [handleRsvp, h1, hfind] at h
    | some inv =>
      by_cases h2 : req.attending = true ∧ inv.allowed_guests < (filteredGuests req).length
      · simp [handleRsvp, h1, hfind, h2] at h
      · refine ⟨inv, rfl, h2, ?_⟩
        simp [handleRsvp, h1, hfind, h2]

/-! ## C1 -/

/-- C1 counterexample: a declined RSVP (attending = false) submitting one
extra guest name is accepted with status 200, and the stored row keeps the
non-empty name list instead of an empty one. -/
theorem c1_counterexample :
    (handleRsvp ⟨[⟨str "i1", str "Fam", str "fam", 2, none, str "t0"⟩], []⟩
        ⟨str "i1", str "Bob", false, [str "Jane"], []⟩ (str "t1") none).1.status = 200 ∧
    (handleRsvp ⟨[⟨str "i1", str "Fam", str "fam", 2, none, str "t0"⟩], []⟩
        ⟨str "i1", str "Bob", false, [str "Jane"], []⟩ (str "t1") none).2.rsvps.map
        RsvpRow.extra_guest_names = [[str "Jane"]] ∧
    [str "Jane"] ≠ ([] : List (List Char)) := by
  refine ⟨by decide, by decide, by decide⟩

/-- C1 (amended): for every accepted POST /public/rsvp submission with
attending = false, the stored row's extra guest name list equals the submitted
list filtered to non-empty trimmed entries (it is not forced to be empty). -/
theorem c1_decline_stores_filtered (db : DB) (req : RsvpReq) (t : List Char)
    (ip : Option (List Char)) (_hatt : req.attending = false)
    (hok : (handleRsvp db req t ip).1.status = 200) :
    ∀ r ∈ (handleRsvp db req t ip).2.rsvps, r.invite_id = req.inviteId →
      r.extra_guest_names = filteredGuests req := by
  obtain ⟨inv, hfind, hbound, hdb⟩ := handleRsvp_ok db req t ip hok
  intro r hr hkey
  rw [hdb] at hr
  have hrow : r = rsvpRowOf req t ip := upsert_mem_key _ _ _ hr hkey
  rw [hrow]
  rfl

/-- C1 witness: a concrete declined submission with an extra name; the
theorem applies and reports the filtered (non-empty) stored list. -/
theorem c1_witness :
    (handleRsvp ⟨[⟨str "i2", str "F", str "f", 1, none, str "t0"⟩], []⟩
        ⟨str "i2", str "Ann", false, [str "Pat"], []⟩ (str "t1") none).1.status = 200 ∧
    ∀ r ∈ (handleRsvp ⟨[⟨str "i2", str "F", str "f", 1, none, str "t0"⟩], []⟩
        ⟨str "i2", str "Ann", false, [str "Pat"], []⟩ (str "t1") none).2.rsvps,
      r.invite_id = str "i2" →
        r.extra_guest_names = filteredGuests ⟨str "i2", str "Ann", false, [str "Pat"], []⟩ :=
  ⟨by decide, c1_decline_stores_filtered _ _ _ _ (by decide) (by decide)⟩

/-! ## C2 -/

/-- C2 counterexample: an invitation allowing 0 extra guests accepts a
declined submission carrying one extra guest name, and the stored row's list
has length 1 > 0; so a stored RSVP row can exceed its invitation's
allowed-extra-guests count. -/
theorem c2_counterexample :
    (handleRsvp ⟨[⟨str "i1", str "Fam", str "fam", 0, none, str "t0"⟩], []⟩
        ⟨str "i1", str "Bob", false, [str "Ann"], []⟩ (str "t1") none).1.status = 200 ∧
    (handleRsvp ⟨[⟨str "i1", str "Fam", str "fam", 0, none, str "t0"⟩], []⟩
        ⟨str "i1", str "Bob", false, [str "Ann"], []⟩ (str "t1") none).2.rsvps.map
        (fun r => r.extra_guest_names.length) = [1] ∧
    ([⟨str "i1", str "Fam", str "fam", 0, none, str "t0"⟩] : List InviteRow).map
        InviteRow.allowed_guests = [0] := by
  refine ⟨by decide, by decide, by decide⟩

/-- C2 (amended): every accepted POST /public/rsvp submission with
attending = true stores at most the invitation's allowed-extra-guests count of
names for that invitation; declined submissions are not bounded (see the
counterexample). -/
theorem c2_attending_guest_bound (db : DB) (req : RsvpReq) (t : List Char)
    (ip : Option (List Char)) (inv : InviteRow)
    (hfind : db.invites.find? (fun i => i.id == req.inviteId) = some inv)
    (hatt : req.attending = true)
    (hok : (handleRsvp db req t ip).1.status = 200) :
    ∀ r ∈ (handleRsvp db req t ip).2.rsvps, r.invite_id = req.inviteId →
      r.extra_guest_names.length ≤ inv.allowed_guests := by
  obtain ⟨inv2, hfind2, hbound, hdb⟩ := handleRsvp_ok db req t ip hok
  rw [hfind] at hfind2
  cases hfind2
  intro r hr hkey
  rw [hdb] at hr
  have hrow : r = rsvpRowOf req t ip := upsert_mem_key _ _ _ hr hkey
  rw [hrow]
  exact Nat.le_of_not_lt (fun hlt => hbound ⟨hatt, hlt⟩)

/-- C2 witness: a concrete accepted attending submission; the theorem applies
and bounds the stored list by the invitation's allowance. -/
theorem c2_witness :
    (handleRsvp ⟨[⟨str "i3", str "F", str "f", 1, none, str "t0"⟩], []⟩
        ⟨str "i3", str "Ann", true, [str "Pat"], []⟩ (str "t1") none).1.status = 200 ∧
    ∀ r ∈ (handleRsvp ⟨[⟨str "i3", str "F", str "f", 1, none, str "t0"⟩], []⟩
        ⟨str "i3", str "Ann", true, [str "Pat"], []⟩ (str "t1") none).2.rsvps,
      r.invite_id = str "i3" → r.extra_guest_names.length ≤ 1 :=
  ⟨by decide, c2_attending_guest_bound _ _ _ _ ⟨str "i3", str "F", str "f", 1, none, str "t0"⟩
    (by decide) (by decide) (by decide)⟩

/-! ## C7 -/

/-- C7: an attending submission for an existing invitation whose filtered
extra guest name list exceeds the invitation's allowance is rejected with
status 400, a message naming the exact allowed count, and an unchanged
database. -/
theorem c7_over_limit_rejected (db : DB) (req : RsvpReq) (t : List Char)
    (ip : Option (List Char)) (inv : InviteRow)
    (hid : req.inviteId ≠ []) (hname : trimStr req.primaryName ≠ [])
    (hfind : db.invites.find? (fun i => i.id == req.inviteId) = some inv)
    (hatt : req.attending = true)
    (hover : inv.allowed_guests < (filteredGuests req).length) :
    handleRsvp db req t ip = (⟨400, Body.errMsg (allowMsg inv.allowed_guests)⟩, db) := by
  have h1 : ¬(req.inviteId = [] ∨ trimStr req.primaryName = []) := by
    rintro (h | h)
    · exact hid h
    · exact hname h
  simp [handleRsvp, h1, hfind, hatt, hover]

/-- C7 witness: an invitation allowing 1 extra guest rejects an attending
submission with 2 extra names, citing the count 1, without touching the
store. -/
theorem c7_witness :
    handleRsvp ⟨[⟨str "i4", str "F", str "f", 1, none, str "t0"⟩], []⟩
        ⟨str "i4", str "Ann", true, [str "Pat", str "Lee"], []⟩ (str "t1") none =
      (⟨400, Body.errMsg (allowMsg 1)⟩,
       ⟨[⟨str "i4", str "F", str "f", 1, none, str "t0"⟩], []⟩) :=
  c7_over_limit_rejected _ _ _ _ ⟨str "i4", str "F", str "f", 1, none, str "t0"⟩
    (by decide) (by decide) (by decide) (by decide) (by decide)

/-! ## C8 -/

/-- C8: two accepted submissions for the same invitation identifier leave
exactly one stored row for it, every field of which comes from the second
submission. -/
theorem c8_upsert_last_write_wins (db : DB) (req1 req2 : RsvpReq) (t1 t2 : List Char)
    (ip1 ip2 : Option (List Char)) (hsame : req2.inviteId = req1.inviteId)
    (hpk : (db.rsvps.filter (fun r => r.invite_id == req1.inviteId)).length ≤ 1)
    (h1 : (handleRsvp db req1 t1 ip1).1.status = 200)
    (h2 : (handleRsvp (handleRsvp db req1 t1 ip1).2 req2 t2 ip2).1.status = 200) :
    ((handleRsvp (handleRsvp db req1 t1 ip1).2 req2 t2 ip2).2).rsvps.filter
        (fun r => r.invite_id == req1.inviteId) = [rsvpRowOf req2 t2 ip2] := by
  obtain ⟨inv1, hf1, hb1, hdb1⟩ := handleRsvp_ok db req1 t1 ip1 h1
  obtain ⟨inv2, hf2, hb2, hdb2⟩ := handleRsvp_ok _ req2 t2 ip2 h2
  rw [hdb2, hdb1]
  have hcount1 : (upsertRsvp db.rsvps (rsvpRowOf req1 t1 ip1)).filter
      (fun r => r.invite_id == req1.inviteId) = [rsvpRowOf req1 t1 ip1] :=
    upsert_filter db.rsvps (rsvpRowOf req1 t1 ip1) hpk
  have hpk2 : ((upsertRsvp db.rsvps (rsvpRowOf req1 t1 ip1)).filter
      (fun r => r.invite_id == req2.inviteId)).length ≤ 1 := by
    rw [hsame, hcount1]
    exact Nat.le_refl 1
  have hfin := upsert_filter (upsertRsvp db.rsvps (rsvpRowOf req1 t1 ip1))
    (rsvpRowOf req2 t2 ip2) hpk2
  rw [show (rsvpRowOf req2 t2 ip2).invite_id = req1.inviteId from hsame] at hfin
  exact hfin

/-- C8 witness: two concrete accepted submissions for the same invitation; the
theorem applies, leaving exactly the second row. -/
theorem c8_witness :
    ((handleRsvp (handleRsvp ⟨[⟨str "i5", str "F", str "f", 2, none, str "t0"⟩], []⟩
          ⟨str "i5", str "Ann", true, [str "Pat"], str "hi"⟩ (str "t1") (some (str "9.9.9.9"))).2
        ⟨str "i5", str "Bob", false, [], []⟩ (str "t2") none).2).rsvps.filter
        (fun r => r.invite_id == str "i5") =
      [rsvpRowOf ⟨str "i5", str "Bob", false, [], []⟩ (str "t2") none] :=
  c8_upsert_last_write_wins ⟨[⟨str "i5", str "F", str "f", 2, none, str "t0"⟩], []⟩
    ⟨str "i5", str "Ann", true, [str "Pat"], str "hi"⟩ ⟨str "i5", str "Bob", false, [], []⟩
    (str "t1") (str "t2") (some (str "9.9.9.9")) none
    (by decide) (by decide) (by decide) (by decide)

/-! ## C5 -/

theorem allowedOrigin_eq (origin : Option (List Char)) (site : List Char) :
    allowedOrigin origin site = site := by
  cases origin with
  | none => rfl
  | some o =>
    show (if o ≠ [] ∧ o = site then o else site) = site
    by_cases h : o ≠ [] ∧ o = site
    · rw [if_pos h, h.2]
    · rw [if_neg h]

/-- C5 counterexample: the top-level catch propagates the exception's own
message ("boom") into the 500 body, which is therefore not a fixed generic
error message. -/
theorem c5_counterexample :
    (catchResponse (str "https://w.example") (some (str "boom"))).body =
      Body.errMsg (str "boom") ∧
    Body.errMsg (str "boom") ≠ Body.errMsg (str "Server error") :=
  ⟨by decide, by decide⟩

/-- C5 (amended): an unhandled exception yields a 500 whose JSON body carries
the exception's message when present and non-empty (else "Server error") and
nothing else — in particular no stack trace — and whose cross-origin headers
equal those of every success response produced by withCors. -/
theorem c5_catch_shape (site : List Char) (origin : Option (List Char))
    (exMsg : Option (List Char)) (m : List Char) (r : Resp) (hm : m ≠ []) :
    (catchResponse site exMsg).status = 500 ∧
    (catchResponse site (some m)).body = Body.errMsg m ∧
    (catchResponse site none).body = Body.errMsg (str "Server error") ∧
    (catchResponse site exMsg).headers = (withCors origin site r).headers := by
  refine ⟨rfl, ?_, rfl, ?_⟩
  · simp [catchResponse, hm]
  · simp [catchResponse, withCors, allowedOrigin_eq]

/-- C5 witness: the amended statement at a concrete site, exception message
and success response. -/
theorem c5_witness :
    (catchResponse (str "https://w.example") (some (str "oops"))).status = 500 ∧
    (catchResponse (str "https://w.example") (some (str "oops"))).body =
      Body.errMsg (str "oops") ∧
    (catchResponse (str "https://w.example") none).body =
      Body.errMsg (str "Server error") ∧
    (catchResponse (str "https://w.example") (some (str "oops"))).headers =
      (withCors none (str "https://w.example") ⟨200, Body.ok⟩).headers :=
  c5_catch_shape (str "https://w.example") none (some (str "oops")) (str "oops")
    ⟨200, Body.ok⟩ (by decide)

/-! ## C6 -/

/-- C6 counterexample: a wrong password on POST /admin/login answers 401 with
"Invalid password.", while a missing/invalid token on the protected admin
routes answers 401 with "Unauthorized"; the two messages differ. -/
theorem c6_counterexample :
    handleAdminLogin (fun _ => str "AA") (fun _ _ => []) (str "s") (str "BB") (str "k")
        (str "pw") 0 = ⟨401, Body.errMsg (str "Invalid password.")⟩ ∧
    adminAuthCheck (fun _ _ => []) (str "k") none 0 =
      some ⟨401, Body.errMsg (str "Unauthorized")⟩ ∧
    str "Invalid password." ≠ str "Unauthorized" :=
  ⟨by decide, by decide, by decide⟩

/-- C6 (amended): a wrong password on POST /admin/login yields 401 with the
message "Invalid password.", while every failure of the admin token guard
(missing, malformed, tampered or expired token, or wrong role) yields 401
with the single message "Unauthorized"; the two messages are distinct, so the
two cases are distinguishable. -/
theorem c6_auth_messages (sha : List Char → List Char)
    (mac : List Char → List Char → List Nat) (salt hash secret pw : List Char)
    (authHeader : Option (List Char)) (now now2 : Nat) (hpw : pw ≠ [])
    (hbad : timingSafeEqual (sha (salt ++ pw)) hash = false)
    (hfail : requireAdmin mac secret authHeader now2 = none) :
    handleAdminLogin sha mac salt hash secret pw now =
      ⟨401, Body.errMsg (str "Invalid password.")⟩ ∧
    adminAuthCheck mac secret authHeader now2 =
      some ⟨401, Body.errMsg (str "Unauthorized")⟩ ∧
    str "Invalid password." ≠ str "Unauthorized" := by
  refine ⟨?_, ?_, by decide⟩
  · simp [handleAdminLogin, hpw, hbad]
  · simp [adminAuthCheck, hfail, unauthorizedResp]

/-- C6 witness: the amended statement at a concrete wrong password and a
request with no Authorization header. -/
theorem c6_witness :
    handleAdminLogin (fun _ => str "XX") (fun _ _ => [0]) (str "s") (str "YY") (str "k")
        (str "pw") 7 = ⟨401, Body.errMsg (str "Invalid password.")⟩ ∧
    adminAuthCheck (fun _ _ => [0]) (str "k") none 7 =
      some ⟨401, Body.errMsg (str "Unauthorized")⟩ ∧
    str "Invalid password." ≠ str "Unauthorized" :=
  c6_auth_messages (fun _ => str "XX") (fun _ _ => [0]) (str "s") (str "YY") (str "k")
    (str "pw") none 7 7 (by decide) (by decide) (by decide)

/-! ## Lemmas about `splitOnDot` and the base64url alphabet -/

theorem splitOnDot_ne_nil (l : List Char) : splitOnDot l ≠ [] := by
  cases l with
  | nil => simp [splitOnDot]
  | cons c rest =>
    unfold splitOnDot
    cases h : splitOnDot rest with
    | nil => simp
    | cons s ss => by_cases hc : c = '.' <;> simp [hc]

theorem splitOnDot_no_dot (s : List Char) (h : '.' ∉ s) : splitOnDot s = [s] := by
  induction s with
  | nil => rfl
  | cons c cs ih =>
    have hc : c ≠ '.' := fun e => h (e ▸ List.mem_cons_self c cs)
    have ihh := ih (fun m => h (List.mem_cons_of_mem c m))
    unfold splitOnDot
    rw [ihh]
    simp [hc]

theorem splitOnDot_append (s t : List Char) (h : '.' ∉ s) :
    splitOnDot (s ++ '.' :: t) = s :: splitOnDot t := by
  induction s with
  | nil =>
    show splitOnDot ('.' :: t) = [] :: splitOnDot t
    conv_lhs => rw [splitOnDot]
    cases hs : splitOnDot t with
    | nil => exact absurd hs (splitOnDot_ne_nil t)
    | cons a as => simp
  | cons c cs ih =>
    have hc : c ≠ '.' := fun e => h (e ▸ List.mem_cons_self c cs)
    have ihh := ih (fun m => h (List.mem_cons_of_mem c m))
    show splitOnDot (c :: (cs ++ '.' :: t)) = (c :: cs) :: splitOnDot t
    conv_lhs => rw [splitOnDot]
    rw [ihh]
    simp [hc]

theorem splitOnDot_three (p1 p2 sig : List Char) (h1 : '.' ∉ p1) (h2 : '.' ∉ p2)
    (h3 : '.' ∉ sig) : splitOnDot ((p1 ++ '.' :: p2) ++ '.' :: sig) = [p1, p2, sig] := by
  rw [List.append_assoc, List.cons_append, splitOnDot_append p1 _ h1,
    splitOnDot_append p2 sig h2, splitOnDot_no_dot sig h3]

theorem encB64_ne_dot (n : Nat) : encB64 n ≠ '.' := by
  by_cases h : n < 64
  · exact (by decide : ∀ m, m < 64 → encB64 m ≠ '.') n h
  · unfold encB64
    rw [List.getD_eq_default]
    · decide
    · have : b64Alphabet.length = 64 := by decide
      omega

theorem b64urlEncode_no_dot : ∀ bs : List Nat, '.' ∉ b64urlEncode bs
  | [] => by simp [b64urlEncode]
  | [a] => by
    intro hmem
    simp only [b64urlEncode, List.mem_cons, List.not_mem_nil, or_false] at hmem
    rcases hmem with h | h <;> exact encB64_ne_dot _ h.symm
  | [a, b] => by
    intro hmem
    simp only [b64urlEncode, List.mem_cons, List.not_mem_nil, or_false] at hmem
    rcases hmem with h | h | h <;> exact encB64_ne_dot _ h.symm
  | a :: b :: c :: rest => by
    intro hmem
    have ih := b64urlEncode_no_dot rest
    simp only [b64urlEncode, List.mem_cons] at hmem
    rcases hmem with h | h | h | h | h
    · exact encB64_ne_dot _ h.symm
    · exact encB64_ne_dot _ h.symm
    · exact encB64_ne_dot _ h.symm
    · exact encB64_ne_dot _ h.symm
    · exact ih h

/-! ## C10 -/

/-- C10: timingSafeEqual accepts exactly the equal string pairs; hence the
login handler's password-hash comparison accepts (status 200) exactly when the
computed digest equals the stored hash, and verifyJWT rejects every
well-segmented token whose signature segment differs from the recomputed
signature. -/
theorem c10_timingSafeEqual_correct :
    (∀ a b : List Char, timingSafeEqual a b = true ↔ a = b) ∧
    (∀ (sha : List Char → List Char) (mac : List Char → List Char → List Nat)
        (salt hash secret pw : List Char) (now : Nat), pw ≠ [] →
      ((handleAdminLogin sha mac salt hash secret pw now).status = 200 ↔
        sha (salt ++ pw) = hash)) ∧
    (∀ (mac : List Char → List Char → List Nat) (secret p1 p2 sig : List Char) (now : Nat),
      '.' ∉ p1 → '.' ∉ p2 → '.' ∉ sig →
      b64urlEncode (mac secret (p1 ++ '.' :: p2)) ≠ sig →
      verifyJWT mac secret ((p1 ++ '.' :: p2) ++ '.' :: sig) now = none) := by
  refine ⟨timingSafeEqual_iff, ?_, ?_⟩
  · intro sha mac salt hash secret pw now hpw
    unfold handleAdminLogin
    rw [if_neg hpw]
    by_cases h : timingSafeEqual (sha (salt ++ pw)) hash = true
    · rw [if_pos h]
      simpa using (timingSafeEqual_iff _ _).mp h
    · rw [if_neg h]
      constructor
      · intro hs
        exact absurd hs (by decide)
      · intro he
        exact absurd ((timingSafeEqual_iff _ _).mpr he) h
  · intro mac secret p1 p2 sig now h1 h2 h3 hne
    unfold verifyJWT
    rw [splitOnDot_three p1 p2 sig h1 h2 h3]
    have : timingSafeEqual (b64urlEncode (mac secret (p1 ++ '.' :: p2))) sig ≠ true :=
      fun h => hne ((timingSafeEqual_iff _ _).mp h)
    simp only [Bool.not_eq_true] at this
    simp [this]

/-- C10 witness: the three clauses applied at concrete strings: equality test,
a successful login comparison, and a token whose signature segment does not
match. -/
theorem c10_witness :
    (timingSafeEqual (str "abc") (str "abc") = true ↔ str "abc" = str "abc") ∧
    ((handleAdminLogin (fun _ => str "H") (fun _ _ => []) (str "s") (str "H") (str "k")
        (str "p") 0).status = 200 ↔ (str "H" : List Char) = str "H") ∧
    verifyJWT (fun _ _ => []) (str "k") ((str "a" ++ '.' :: str "b") ++ '.' :: str "c") 0 =
      none :=
  ⟨c10_timingSafeEqual_correct.1 (str "abc") (str "abc"),
   c10_timingSafeEqual_correct.2.1 (fun _ => str "H") (fun _ _ => []) (str "s") (str "H")
     (str "k") (str "p") 0 (by decide),
   c10_timingSafeEqual_correct.2.2 (fun _ _ => []) (str "k") (str "a") (str "b") (str "c")
     0 (by decide) (by decide) (by decide) (by decide)⟩

/-! ## Roundtrip of the base64url codec -/

theorem decB64_encB64 (n : Nat) (h : n < 64) : decB64 (encB64 n) = n :=
  (by decide : ∀ m, m < 64 → decB64 (encB64 m) = m) n h

theorem b64url_roundtrip : ∀ bs : List Nat, (∀ x ∈ bs, x < 256) →
    b64urlDecode (b64urlEncode bs) = bs
  | [], _ => rfl
  | [a], h => by
    have ha : a < 256 := h a (by simp)
    simp only [b64urlEncode, b64urlDecode]
    rw [decB64_encB64 _ (by omega), decB64_encB64 _ (by omega)]
    simp only [List.cons.injEq, and_true]
    omega
  | [a, b], h => by
    have ha : a < 256 := h a (by simp)
    have hb : b < 256 := h b (by simp)
    simp only [b64urlEncode, b64urlDecode]
    rw [decB64_encB64 _ (by omega), decB64_encB64 _ (by omega), decB64_encB64 _ (by omega)]
    simp only [List.cons.injEq, and_true]
    exact ⟨by omega, by omega⟩
  | a :: b :: c :: rest, h => by
    have ha : a < 256 := h a (by simp)
    have hb : b < 256 := h b (by simp)
    have hc : c < 256 := h c (by simp)
    have ih := b64url_roundtrip rest (fun x hx => h x (by simp [hx]))
    match rest with
    | [] =>
      simp only [b64urlEncode, b64urlDecode]
      rw [decB64_encB64 _ (by omega), decB64_encB64 _ (by omega), decB64_encB64 _ (by omega),
        decB64_encB64 _ (by omega)]
      simp only [List.cons.injEq, and_true]
      exact ⟨by omega, by omega, by omega⟩
    | r1 :: rrest =>
      simp only [b64urlEncode] at ih ⊢
      rw [show ∀ w x y z t, b64urlDecode (w :: x :: y :: z :: t) =
          (decB64 w * 4 + decB64 x / 16) :: (decB64 x % 16 * 16 + decB64 y / 4) ::
            (decB64 y % 4 * 64 + decB64 z) :: b64urlDecode t from fun _ _ _ _ _ => rfl]
      rw [decB64_encB64 _ (by omega), decB64_encB64 _ (by omega), decB64_encB64 _ (by omega),
        decB64_encB64 _ (by omega)]
      refine List.cons_eq_cons.mpr ⟨by omega, List.cons_eq_cons.mpr ⟨by omega,
        List.cons_eq_cons.mpr ⟨by omega, ih⟩⟩⟩

/-! ## Roundtrip of the UTF-8 codec -/

theorem char_toNat_lt (c : Char) : c.toNat < 0x110000 := by
  rcases c.valid with h | h
  · exact Nat.lt_trans h (by omega)
  · exact h.2

theorem utf8EncodeChar_lt_256 (n : Nat) (hn : n < 0x110000) :
    ∀ x ∈ utf8EncodeChar n, x < 256 := by
  intro x hx
  unfold utf8EncodeChar at hx
  by_cases h1 : n < 0x80
  · rw [if_pos h1] at hx
    simp at hx
    omega
  · rw [if_neg h1] at hx
    by_cases h2 : n < 0x800
    · rw [if_pos h2] at hx
      simp at hx
      rcases hx with rfl | rfl <;> omega
    · rw [if_neg h2] at hx
      by_cases h3 : n < 0x10000
      · rw [if_pos h3] at hx
        simp at hx
        rcases hx with rfl | rfl | rfl <;> omega
      · rw [if_neg h3] at hx
        simp at hx
        rcases hx with rfl | rfl | rfl | rfl <;> omega

theorem utf8Encode_cons (c : Char) (cs : List Char) :
    utf8Encode (c :: cs) = utf8EncodeChar c.toNat ++ utf8Encode cs := by
  simp [utf8Encode]

theorem utf8Encode_lt_256 (l : List Char) : ∀ x ∈ utf8Encode l, x < 256 := by
  induction l with
  | nil =>
    intro x hx
    simp [utf8Encode] at hx
  | cons c cs ih =>
    intro x hx
    rw [utf8Encode_cons] at hx
    rcases List.mem_append.mp hx with h | h
    · exact utf8EncodeChar_lt_256 c.toNat (char_toNat_lt c) x h
    · exact ih x h

theorem utf8Decode_encodeChar (c : Char) (rest : List Nat) :
    utf8Decode (utf8EncodeChar c.toNat ++ rest) = c :: utf8Decode rest := by
  have hv := char_toNat_lt c
  by_cases h1 : c.toNat < 0x80
  · have e : utf8EncodeChar c.toNat = [c.toNat] := by rw [utf8EncodeChar, if_pos h1]
    rw [e, List.cons_append, List.nil_append, utf8Decode, if_pos h1, Char.ofNat_toNat]
  · by_cases h2 : c.toNat < 0x800
    · have e : utf8EncodeChar c.toNat = [0xC0 + c.toNat / 64, 0x80 + c.toNat % 64] := by
        rw [utf8EncodeChar, if_neg h1, if_pos h2]
      rw [e, List.cons_append, List.cons_append, List.nil_append, utf8Decode,
        if_neg (by omega), if_pos (by omega), if_pos (by simp)]
      simp only [List.getD, List.get?_cons_zero, Option.getD_some, List.drop_succ_cons,
        List.drop_zero]
      rw [show (0xC0 + c.toNat / 64 - 0xC0) * 64 + (0x80 + c.toNat % 64 - 0x80) = c.toNat by
        omega, Char.ofNat_toNat]
    · by_cases h3 : c.toNat < 0x10000
      · have e : utf8EncodeChar c.toNat =
            [0xE0 + c.toNat / 4096, 0x80 + c.toNat / 64 % 64, 0x80 + c.toNat % 64] := by
          rw [utf8EncodeChar, if_neg h1, if_neg h2, if_pos h3]
        rw [e, List.cons_append, List.cons_append, List.cons_append, List.nil_append,
          utf8Decode, if_neg (by omega), if_neg (by omega), if_pos (by omega),
          if_pos (by simp)]
        simp only [List.getD, List.get?_cons_zero, List.get?_cons_succ,
          Option.getD_some, List.drop_succ_cons, List.drop_zero]
        rw [show (0xE0 + c.toNat / 4096 - 0xE0) * 4096 +
            (0x80 + c.toNat / 64 % 64 - 0x80) * 64 + (0x80 + c.toNat % 64 - 0x80) = c.toNat by
          omega, Char.ofNat_toNat]
      · have e : utf8EncodeChar c.toNat = [0xF0 + c.toNat / 262144,
            0x80 + c.toNat / 4096 % 64, 0x80 + c.toNat / 64 % 64, 0x80 + c.toNat % 64] := by
          rw [utf8EncodeChar, if_neg h1, if_neg h2, if_neg h3]
        rw [e, List.cons_append, List.cons_append, List.cons_append, List.cons_append,
          List.nil_append, utf8Decode, if_neg (by omega), if_neg (by omega),
          if_neg (by omega), if_pos (by simp)]
        simp only [List.getD, List.get?_cons_zero, List.get?_cons_succ,
          Option.getD_some, List.drop_succ_cons, List.drop_zero]
        rw [show (0xF0 + c.toNat / 262144 - 0xF0) * 262144 +
            (0x80 + c.toNat / 4096 % 64 - 0x80) * 4096 +
            (0x80 + c.toNat / 64 % 64 - 0x80) * 64 + (0x80 + c.toNat % 64 - 0x80) = c.toNat by
          omega, Char.ofNat_toNat]

theorem utf8_roundtrip (l : List Char) : utf8Decode (utf8Encode l) = l := by
  induction l with
  | nil =>
    have e : utf8Encode [] = [] := by simp [utf8Encode]
    rw [e, utf8Decode]
  | cons c cs ih =>
    rw [utf8Encode_cons, utf8Decode_encodeChar, ih]

/-! ## Roundtrip of the JSON fragment codec -/

theorem parseStrBody_escape (s : List Char) : ∀ rest : List Char,
    parseStrBody (escapeStr s ++ '"' :: rest) = some (s, rest) := by
  induction s with
  | nil =>
    intro rest
    have e : escapeStr [] = [] := by simp [escapeStr]
    rw [e, List.nil_append]
    rfl
  | cons c cs ih =>
    intro rest
    have e : escapeStr (c :: cs) ++ '"' :: rest = escapeChar c ++ (escapeStr cs ++ '"' :: rest) := by
      simp [escapeStr]
    rw [e]
    by_cases h1 : c = '"'
    · subst h1
      have ec : escapeChar '"' = ['\\', '"'] := by decide
      rw [ec]
      show parseStrBody ('\\' :: '"' :: (escapeStr cs ++ '"' :: rest)) = _
      simp [parseStrBody, unescapeChar, ih rest]
    · by_cases h2 : c = '\\'
      · subst h2
        have ec : escapeChar '\\' = ['\\', '\\'] := by decide
        rw [ec]
        show parseStrBody ('\\' :: '\\' :: (escapeStr cs ++ '"' :: rest)) = _
        simp [parseStrBody, unescapeChar, ih rest]
      · by_cases h3 : c = Char.ofNat 8
        · subst h3
          have ec : escapeChar (Char.ofNat 8) = ['\\', 'b'] := by decide
          rw [ec]
          show parseStrBody ('\\' :: 'b' :: (escapeStr cs ++ '"' :: rest)) = _
          simp [parseStrBody, unescapeChar, ih rest]
        · by_cases h4 : c = Char.ofNat 9
          · subst h4
            have ec : escapeChar (Char.ofNat 9) = ['\\', 't'] := by decide
            rw [ec]
            show parseStrBody ('\\' :: 't' :: (escapeStr cs ++ '"' :: rest)) = _
            simp [parseStrBody, unescapeChar, ih rest]
          · by_cases h5 : c = Char.ofNat 10
            · subst h5
              have ec : escapeChar (Char.ofNat 10) = ['\\', 'n'] := by decide
              rw [ec]
              show parseStrBody ('\\' :: 'n' :: (escapeStr cs ++ '"' :: rest)) = _
              simp [parseStrBody, unescapeChar, ih rest]
            · by_cases h6 : c = Char.ofNat 12
              · subst h6
                have ec : escapeChar (Char.ofNat 12) = ['\\', 'f'] := by decide
                rw [ec]
                show parseStrBody ('\\' :: 'f' :: (escapeStr cs ++ '"' :: rest)) = _
                simp [parseStrBody, unescapeChar, ih rest]
              · by_cases h7 : c = Char.ofNat 13
                · subst h7
                  have ec : escapeChar (Char.ofNat 13) = ['\\', 'r'] := by decide
                  rw [ec]
                  show parseStrBody ('\\' :: 'r' :: (escapeStr cs ++ '"' :: rest)) = _
                  simp [parseStrBody, unescapeChar, ih rest]
                · have ec : escapeChar c = [c] := by
                    unfold escapeChar
                    rw [if_neg h1, if_neg h2, if_neg h3, if_neg h4, if_neg h5, if_neg h6,
                      if_neg h7]
                  rw [ec]
                  show parseStrBody (c :: (escapeStr cs ++ '"' :: rest)) = _
                  simp [parseStrBody, h1, h2, ih rest]

theorem digit_char_isDigit : ∀ d, d < 10 → (Char.ofNat (48 + d)).isDigit = true := by decide

theorem digit_char_toNat : ∀ d, d < 10 → (Char.ofNat (48 + d)).toNat = 48 + d := by decide

theorem natDigits_ne_nil (n : Nat) : natDigits n ≠ [] := by
  rw [natDigits]
  split
  · simp
  · simp

theorem natDigits_digits (n : Nat) : ∀ c ∈ natDigits n, c.isDigit = true := by
  induction n using Nat.strong_induction_on with
  | _ n ih =>
    rw [natDigits]
    split
    · rename_i h
      intro c hc
      simp at hc
      subst hc
      exact digit_char_isDigit n h
    · rename_i h
      intro c hc
      rcases List.mem_append.mp hc with h2 | h2
      · exact ih (n / 10) (Nat.div_lt_self (by omega) (by omega)) c h2
      · simp at h2
        subst h2
        exact digit_char_isDigit (n % 10) (by omega)

theorem natDigits_foldl (n : Nat) :
    (natDigits n).foldl (fun a c => a * 10 + (c.toNat - 48)) 0 = n := by
  induction n using Nat.strong_induction_on with
  | _ n ih =>
    rw [natDigits]
    split
    · rename_i h
      simp [digit_char_toNat n h]
    · rename_i h
      rw [List.foldl_append, ih (n / 10) (Nat.div_lt_self (by omega) (by omega))]
      simp [digit_char_toNat (n % 10) (by omega)]
      omega

theorem takeWhile_append_all (p : Char → Bool) (l rest : List Char)
    (hl : ∀ c ∈ l, p c = true) (hr : ∀ c, rest.head? = some c → p c = false) :
    (l ++ rest).takeWhile p = l ∧ (l ++ rest).dropWhile p = rest := by
  induction l with
  | nil =>
    cases rest with
    | nil => exact ⟨rfl, rfl⟩
    | cons r rs =>
      have hpr : p r = false := hr r rfl
      constructor
      · rw [List.nil_append, List.takeWhile_cons, hpr]
        rfl
      · rw [List.nil_append, List.dropWhile_cons, hpr]
        rfl
  | cons x xs ih =>
    have hpx : p x = true := hl x (List.mem_cons_self x xs)
    obtain ⟨iht, ihd⟩ := ih (fun c hc => hl c (List.mem_cons_of_mem x hc))
    constructor
    · rw [List.cons_append, List.takeWhile_cons, hpx, iht]
      simp
    · rw [List.cons_append, List.dropWhile_cons, hpx, ihd]
      simp

theorem parseNat_natDigits (n : Nat) (rest : List Char)
    (hr : ∀ c, rest.head? = some c → c.isDigit = false) :
    parseNat (natDigits n ++ rest) = some (n, rest) := by
  obtain ⟨ht, hd⟩ := takeWhile_append_all Char.isDigit (natDigits n) rest
    (natDigits_digits n) hr
  unfold parseNat
  rw [ht, hd, if_neg (natDigits_ne_nil n), natDigits_foldl]

theorem parseVal_serStr (s rest : List Char) :
    parseVal (serStr s ++ rest) = some (JVal.jstr s, rest) := by
  have e : serStr s ++ rest = '"' :: (escapeStr s ++ '"' :: rest) := by
    simp [serStr]
  have e2 : parseVal ('"' :: (escapeStr s ++ '"' :: rest)) =
      (parseStrBody (escapeStr s ++ '"' :: rest)).map (fun p => (JVal.jstr p.1, p.2)) := by
    simp [parseVal]
  rw [e, e2, parseStrBody_escape s rest]
  rfl

theorem parseVal_serNum (n : Nat) (rest : List Char)
    (hr : ∀ c, rest.head? = some c → c.isDigit = false) :
    parseVal (natDigits n ++ rest) = some (JVal.jnum n, rest) := by
  cases hnd : natDigits n with
  | nil => exact absurd hnd (natDigits_ne_nil n)
  | cons d ds =>
    have hd : d.isDigit = true := natDigits_digits n d (hnd ▸ List.mem_cons_self d ds)
    have hdq : d ≠ '"' := by
      intro e
      rw [e] at hd
      exact absurd hd (by decide)
    rw [List.cons_append]
    have e : parseVal (d :: (ds ++ rest)) =
        (parseNat (d :: (ds ++ rest))).map (fun p => (JVal.jnum p.1, p.2)) := by
      simp [parseVal, hdq]
    rw [e, ← List.cons_append, ← hnd, parseNat_natDigits n rest hr]
    rfl

theorem parseVal_serVal (v : JVal) (rest : List Char)
    (hr : ∀ c, rest.head? = some c → c.isDigit = false) :
    parseVal (serVal v ++ rest) = some (v, rest) := by
  cases v with
  | jstr s => exact parseVal_serStr s rest
  | jnum n => exact parseVal_serNum n rest hr

theorem parsePairs_quote (fuel : Nat) (l : List Char) :
    parsePairs (fuel + 1) ('"' :: l) =
      match parseStrBody l with
      | none => none
      | some (k, r1) =>
        match r1 with
        | c1 :: r2 =>
          if c1 = ':' then
            match parseVal r2 with
            | none => none
            | some (v, r3) =>
              match r3 with
              | c2 :: r4 =>
                if c2 = ',' then (parsePairs fuel r4).map (fun p => ((k, v) :: p.1, p.2))
                else if c2 = Char.ofNat 125 then some ([(k, v)], r4) else none
              | [] => none
          else none
        | [] => none := rfl

theorem parsePairs_start (fuel : Nat) (k : List Char) (v : JVal) (t : List Char)
    (hr : ∀ c, t.head? = some c → c.isDigit = false) :
    parsePairs (fuel + 1) ((serStr k ++ ':' :: serVal v) ++ t) =
      match t with
      | c2 :: r4 =>
        if c2 = ',' then (parsePairs fuel r4).map (fun p => ((k, v) :: p.1, p.2))
        else if c2 = Char.ofNat 125 then some ([(k, v)], r4) else none
      | [] => none := by
  have e : (serStr k ++ ':' :: serVal v) ++ t =
      '"' :: (escapeStr k ++ '"' :: (':' :: (serVal v ++ t))) := by
    simp [serStr]
  rw [e, parsePairs_quote, parseStrBody_escape]
  dsimp only
  rw [if_pos rfl, parseVal_serVal v t hr]
  cases t <;> rfl

theorem parsePairs_ser (kvs : List (List Char × JVal)) : ∀ (kv : List Char × JVal)
    (fuel : Nat) (rest : List Char), kvs.length ≤ fuel →
    parsePairs (fuel + 1) (serPairs (kv :: kvs) ++ Char.ofNat 125 :: rest) =
      some (kv :: kvs, rest) := by
  induction kvs with
  | nil =>
    intro kv fuel rest _
    have e : serPairs [kv] ++ Char.ofNat 125 :: rest =
        (serStr kv.1 ++ ':' :: serVal kv.2) ++ Char.ofNat 125 :: rest := by
      simp [serPairs, serPair]
    rw [e, parsePairs_start fuel kv.1 kv.2 (Char.ofNat 125 :: rest) (by
      intro c hc
      simp at hc
      subst hc
      decide)]
    dsimp only
    rw [if_neg (by decide), if_pos rfl]
  | cons kv2 kvs2 ih =>
    intro kv fuel rest hfuel
    cases fuel with
    | zero => simp at hfuel
    | succ fuel2 =>
      have e : serPairs (kv :: kv2 :: kvs2) ++ Char.ofNat 125 :: rest =
          (serStr kv.1 ++ ':' :: serVal kv.2) ++
            ',' :: (serPairs (kv2 :: kvs2) ++ Char.ofNat 125 :: rest) := by
        simp [serPairs, serPair]
      rw [e, parsePairs_start (fuel2 + 1) kv.1 kv.2
        (',' :: (serPairs (kv2 :: kvs2) ++ Char.ofNat 125 :: rest)) (by
          intro c hc
          simp at hc
          subst hc
          decide)]
      dsimp only
      rw [if_pos rfl, ih kv2 fuel2 rest (by simpa using hfuel)]
      rfl

theorem serPair_length_pos (kv : List Char × JVal) : 1 ≤ (serPair kv).length := by
  simp [serPair, serStr]

theorem serPairs_length (kvs : List (List Char × JVal)) :
    kvs.length ≤ (serPairs kvs).length := by
  induction kvs with
  | nil => simp [serPairs]
  | cons kv kvs2 ih =>
    cases kvs2 with
    | nil =>
      have := serPair_length_pos kv
      simp [serPairs]
      omega
    | cons kv2 kvs3 =>
      have h1 := serPair_length_pos kv
      have e : serPairs (kv :: kv2 :: kvs3) = serPair kv ++ ',' :: serPairs (kv2 :: kvs3) :=
        rfl
      rw [e]
      simp only [List.length_cons, List.length_append]
      simp only [List.length_cons] at ih
      omega

theorem parseObj_serObj (kvs : List (List Char × JVal)) (hk : kvs ≠ []) :
    parseObj (serObj kvs) = some kvs := by
  cases kvs with
  | nil => exact absurd rfl hk
  | cons kv kvs2 =>
    have e : serObj (kv :: kvs2) =
        Char.ofNat 123 :: (serPairs (kv :: kvs2) ++ Char.ofNat 125 :: []) := rfl
    rw [e]
    show (if Char.ofNat 123 = Char.ofNat 123 then
      match parsePairs (serPairs (kv :: kvs2) ++ Char.ofNat 125 :: []).length
          (serPairs (kv :: kvs2) ++ Char.ofNat 125 :: []) with
      | some (kvs, []) => some kvs
      | _ => none
      else none) = some (kv :: kvs2)
    rw [if_pos rfl]
    have hlen : (serPairs (kv :: kvs2) ++ Char.ofNat 125 :: []).length =
        (serPairs (kv :: kvs2)).length + 1 := by
      simp
    rw [hlen, parsePairs_ser kvs2 kv (serPairs (kv :: kvs2)).length []
      (le_trans (by simp) (serPairs_length (kv :: kvs2)))]

theorem getProp_exp (claims : List (List Char × JVal)) (iat ttl : Nat) :
    getProp (str "exp") (fullPayload claims iat ttl) = some (JVal.jnum (iat + ttl)) := by
  unfold getProp fullPayload
  rw [List.reverse_append]
  simp [List.find?]

/-! ## Verification of tokens produced by `signJWT` -/

theorem fullPayload_ne_nil (claims : List (List Char × JVal)) (iat ttl : Nat) :
    fullPayload claims iat ttl ≠ [] := by
  simp [fullPayload]

theorem verify_sign (mac : List Char → List Char → List Nat) (secret : List Char)
    (claims : List (List Char × JVal)) (ttl iat now : Nat) :
    verifyJWT mac secret (signJWT mac secret claims ttl iat) now =
      if iat + ttl < now then none else some (fullPayload claims iat ttl) := by
  have hsig : signJWT mac secret claims ttl iat =
      (b64urlJson jwtHeader ++ '.' :: b64urlJson (fullPayload claims iat ttl)) ++
        '.' :: b64urlEncode (mac secret
          (b64urlJson jwtHeader ++ '.' :: b64urlJson (fullPayload claims iat ttl))) := rfl
  rw [hsig]
  unfold verifyJWT
  rw [splitOnDot_three _ _ _
    (show '.' ∉ b64urlJson jwtHeader from b64urlEncode_no_dot _)
    (show '.' ∉ b64urlJson (fullPayload claims iat ttl) from b64urlEncode_no_dot _)
    (b64urlEncode_no_dot (mac secret (b64urlJson jwtHeader ++ '.' ::
      b64urlJson (fullPayload claims iat ttl))))]
  dsimp only
  rw [(timingSafeEqual_iff _ _).mpr rfl, if_pos rfl]
  have hp2 : b64urlDecode (b64urlJson (fullPayload claims iat ttl)) =
      utf8Encode (serObj (fullPayload claims iat ttl)) :=
    b64url_roundtrip _ (utf8Encode_lt_256 _)
  rw [hp2, utf8_roundtrip, parseObj_serObj _ (fullPayload_ne_nil claims iat ttl)]
  dsimp only
  rw [getProp_exp]

theorem verify_some_exp (mac : List Char → List Char → List Nat)
    (secret token : List Char) (now : Nat) (p : List (List Char × JVal))
    (h : verifyJWT mac secret token now = some p) :
    ∃ e, getProp (str "exp") p = some (JVal.jnum e) ∧ ¬ e < now := by
  unfold verifyJWT at h
  split at h
  · rename_i x p1 p2 sig heq
    dsimp only at h
    by_cases htse :
        timingSafeEqual (b64urlEncode (mac secret (p1 ++ '.' :: p2))) sig = true
    · rw [if_pos htse] at h
      split at h
      · cases h
      · split at h
        · rename_i e heq2
          split at h
          · cases h
          · rename_i hlt
            cases h
            exact ⟨e, heq2, hlt⟩
        · cases h
    · rw [if_neg htse] at h
      cases h
  · cases h

/-! ## C3 -/

/-- C3 counterexample: a token signed at 100 with ttl 60 has exp = 160 and is
still accepted by verifyJWT at the expiry instant 160, so verification does
not fail at or before the expiry instant but only strictly after it. -/
theorem c3_counterexample :
    verifyJWT (fun _ _ => [1, 2, 3]) (str "k")
        (signJWT (fun _ _ => [1, 2, 3]) (str "k") [(str "role", JVal.jstr (str "admin"))] 60 100)
        160 = some (fullPayload [(str "role", JVal.jstr (str "admin"))] 100 60) ∧
    getProp (str "exp") (fullPayload [(str "role", JVal.jstr (str "admin"))] 100 60) =
      some (JVal.jnum 160) := by
  constructor
  · rw [verify_sign, if_neg (by omega)]
  · decide

/-- C3 (amended): verifyJWT returns a payload only when the payload's exp is a
number not strictly below the current time; a token issued with ttl T
verifies at every instant up to and including T seconds after issuance
(T-1 in particular) and fails strictly after expiry (T+1 in particular). -/
theorem c3_expiry_boundary (mac : List Char → List Char → List Nat)
    (secret : List Char) (claims : List (List Char × JVal)) (ttl iat now : Nat) :
    (∀ (token : List Char) (p : List (List Char × JVal)) (now2 : Nat),
      verifyJWT mac secret token now2 = some p →
      ∃ e, getProp (str "exp") p = some (JVal.jnum e) ∧ ¬ e < now2) ∧
    (now ≤ iat + ttl →
      verifyJWT mac secret (signJWT mac secret claims ttl iat) now =
        some (fullPayload claims iat ttl)) ∧
    (iat + ttl < now →
      verifyJWT mac secret (signJWT mac secret claims ttl iat) now = none) := by
  refine ⟨fun token p now2 h => verify_some_exp mac secret token now2 p h, ?_, ?_⟩
  · intro hle
    rw [verify_sign, if_neg (by omega)]
  · intro hlt
    rw [verify_sign, if_pos hlt]

/-- C3 witness: a concrete token issued at 100 with ttl 60 verifies at 159
(T-1) and fails at 161 (T+1); the verified payload carries exp = 160 ≥ 159. -/
theorem c3_witness :
    (∃ e, getProp (str "exp") (fullPayload [(str "role", JVal.jstr (str "admin"))] 100 60) =
        some (JVal.jnum e) ∧ ¬ e < 159) ∧
    verifyJWT (fun _ _ => [1, 2, 3]) (str "k")
        (signJWT (fun _ _ => [1, 2, 3]) (str "k") [(str "role", JVal.jstr (str "admin"))] 60 100)
        159 = some (fullPayload [(str "role", JVal.jstr (str "admin"))] 100 60) ∧
    verifyJWT (fun _ _ => [1, 2, 3]) (str "k")
        (signJWT (fun _ _ => [1, 2, 3]) (str "k") [(str "role", JVal.jstr (str "admin"))] 60 100)
        161 = none :=
  ⟨(c3_expiry_boundary (fun _ _ => [1, 2, 3]) (str "k")
      [(str "role", JVal.jstr (str "admin"))] 60 100 159).1 _ _ 159
      ((c3_expiry_boundary (fun _ _ => [1, 2, 3]) (str "k")
        [(str "role", JVal.jstr (str "admin"))] 60 100 159).2.1 (by decide)),
   (c3_expiry_boundary (fun _ _ => [1, 2, 3]) (str "k")
      [(str "role", JVal.jstr (str "admin"))] 60 100 159).2.1 (by decide),
   (c3_expiry_boundary (fun _ _ => [1, 2, 3]) (str "k")
      [(str "role", JVal.jstr (str "admin"))] 60 100 161).2.2 (by decide)⟩

/-! ## C9 -/

/-- C9: for every HMAC primitive, secret, claims object (modelled as a flat
JSON object with distinct keys other than iat and exp, over characters with
two-character JSON escapes) and ttl, the signed token splits into exactly
three dot segments, and verification at any time strictly before expiry
returns the payload consisting of the original claims plus iat (the issue
instant) and exp = iat + ttl. -/
theorem c9_jwt_roundtrip (mac : List Char → List Char → List Nat)
    (secret : List Char) (claims : List (List Char × JVal)) (ttl iat now : Nat)
    (_hgood : jsonSafeObj claims = true)
    (_hnodup : (claims.map Prod.fst).Nodup)
    (_hiat : str "iat" ∉ claims.map Prod.fst) (_hexp : str "exp" ∉ claims.map Prod.fst)
    (hnow : now < iat + ttl) :
    (splitOnDot (signJWT mac secret claims ttl iat)).length = 3 ∧
    verifyJWT mac secret (signJWT mac secret claims ttl iat) now =
      some (claims ++ [(str "iat", JVal.jnum iat), (str "exp", JVal.jnum (iat + ttl))]) := by
  constructor
  · rw [show signJWT mac secret claims ttl iat =
        (b64urlJson jwtHeader ++ '.' :: b64urlJson (fullPayload claims iat ttl)) ++
          '.' :: b64urlEncode (mac secret (b64urlJson jwtHeader ++ '.' ::
            b64urlJson (fullPayload claims iat ttl))) from rfl,
      splitOnDot_three _ _ _
        (show '.' ∉ b64urlJson jwtHeader from b64urlEncode_no_dot _)
        (show '.' ∉ b64urlJson (fullPayload claims iat ttl) from b64urlEncode_no_dot _)
        (b64urlEncode_no_dot _)]
    rfl
  · rw [verify_sign, if_neg (by omega)]
    rfl

/-- C9 witness: the concrete admin claims object signed with ttl 21600 at
instant 50 splits into three segments and verifies at instant 1000 to the
claims plus iat = 50 and exp = 21650. -/
theorem c9_witness :
    jsonSafeObj [(str "role", JVal.jstr (str "admin"))] = true ∧ (50 : Nat) < 50 + 21600 ∧
    (splitOnDot (signJWT (fun _ _ => [7, 200]) (str "k")
        [(str "role", JVal.jstr (str "admin"))] 21600 50)).length = 3 ∧
    verifyJWT (fun _ _ => [7, 200]) (str "k")
        (signJWT (fun _ _ => [7, 200]) (str "k")
          [(str "role", JVal.jstr (str "admin"))] 21600 50) 1000 =
      some ([(str "role", JVal.jstr (str "admin"))] ++
        [(str "iat", JVal.jnum 50), (str "exp", JVal.jnum (50 + 21600))]) :=
  ⟨by decide, by decide,
   (c9_jwt_roundtrip (fun _ _ => [7, 200]) (str "k")
      [(str "role", JVal.jstr (str "admin"))] 21600 50 1000 (by decide) (by decide)
      (by decide) (by decide) (by decide)).1,
   (c9_jwt_roundtrip (fun _ _ => [7, 200]) (str "k")
      [(str "role", JVal.jstr (str "admin"))] 21600 50 1000 (by decide) (by decide)
      (by decide) (by decide) (by decide)).2⟩

/-! ## C4: structure of normalized names -/

theorem char_toNat_ofNat (m : Nat) (h : m < 0xd800) : (Char.ofNat m).toNat = m := by
  unfold Char.ofNat
  rw [dif_pos (Or.inl h)]
  rfl

theorem toLower_idem (c : Char) : c.toLower.toLower = c.toLower := by
  by_cases h : c.toNat ≥ 65 ∧ c.toNat ≤ 90
  · have e1 : c.toLower = Char.ofNat (c.toNat + 32) := by
      unfold Char.toLower
      rw [if_pos h]
    rw [e1]
    unfold Char.toLower
    rw [char_toNat_ofNat _ (by omega), if_neg (by omega)]
  · have e1 : c.toLower = c := by
      unfold Char.toLower
      rw [if_neg h]
    rw [e1, e1]

theorem collapseWs_cons_space (x : Char) (xs : List Char) (hx : jsIsSpace x = true) :
    collapseWs (x :: xs) = ' ' :: collapseWs (xs.dropWhile jsIsSpace) := by
  rw [collapseWs, if_pos hx]

theorem collapseWs_cons_not_space (x : Char) (xs : List Char) (hx : jsIsSpace x = false) :
    collapseWs (x :: xs) = x :: collapseWs xs := by
  rw [collapseWs, if_neg (by simp [hx])]

theorem collapseWs_mem : ∀ (n : Nat) (l : List Char), l.length ≤ n →
    ∀ c ∈ collapseWs l, c = ' ' ∨ (c ∈ l ∧ jsIsSpace c = false) := by
  intro n
  induction n with
  | zero =>
    intro l hl c hc
    rw [List.length_eq_zero.mp (Nat.le_zero.mp hl)] at hc
    simp [collapseWs] at hc
  | succ n ih =>
    intro l hl c hc
    cases l with
    | nil => simp [collapseWs] at hc
    | cons x xs =>
      by_cases hx : jsIsSpace x = true
      · rw [collapseWs_cons_space x xs hx] at hc
        rcases List.mem_cons.mp hc with rfl | hc2
        · exact Or.inl rfl
        · have hlen : (xs.dropWhile jsIsSpace).length ≤ n := by
            have := (List.dropWhile_sublist jsIsSpace (l := xs)).length_le
            simp at hl
            omega
          rcases ih (xs.dropWhile jsIsSpace) hlen c hc2 with h | ⟨hmem, hsp⟩
          · exact Or.inl h
          · exact Or.inr ⟨List.mem_cons_of_mem x
              ((List.dropWhile_sublist jsIsSpace (l := xs)).subset hmem), hsp⟩
      · rw [collapseWs_cons_not_space x xs (by simpa using hx)] at hc
        rcases List.mem_cons.mp hc with rfl | hc2
        · exact Or.inr ⟨List.mem_cons_self _ _, by simpa using hx⟩
        · have hlen : xs.length ≤ n := by
            simp at hl
            omega
          rcases ih xs hlen c hc2 with h | ⟨hmem, hsp⟩
          · exact Or.inl h
          · exact Or.inr ⟨List.mem_cons_of_mem x hmem, hsp⟩

theorem dropWhile_head_false (p : Char → Bool) (l : List Char) (d : Char) (ds : List Char)
    (h : l.dropWhile p = d :: ds) : p d = false := by
  induction l with
  | nil => simp at h
  | cons x xs ih =>
    rw [List.dropWhile_cons] at h
    by_cases hx : p x = true
    · rw [if_pos hx] at h
      exact ih h
    · rw [if_neg hx] at h
      cases h
      simpa using hx

theorem collapseWs_chain : ∀ (n : Nat) (l : List Char), l.length ≤ n →
    List.Chain' (fun a b => ¬(jsIsSpace a = true ∧ jsIsSpace b = true)) (collapseWs l) := by
  intro n
  induction n with
  | zero =>
    intro l hl
    rw [List.length_eq_zero.mp (Nat.le_zero.mp hl)]
    simp [collapseWs]
  | succ n ih =>
    intro l hl
    cases l with
    | nil => simp [collapseWs]
    | cons x xs =>
      have hxs : xs.length ≤ n := by
        simp at hl
        omega
      by_cases hx : jsIsSpace x = true
      · rw [collapseWs_cons_space x xs hx]
        rw [List.chain'_cons']
        constructor
        · intro y hy
          cases hd : xs.dropWhile jsIsSpace with
          | nil =>
            rw [hd] at hy
            simp [collapseWs] at hy
          | cons d ds =>
            have hdns : jsIsSpace d = false := dropWhile_head_false jsIsSpace xs d ds hd
            rw [hd, collapseWs_cons_not_space d ds hdns] at hy
            cases hy
            intro hcon
            rw [hdns] at hcon
            exact Bool.false_ne_true hcon.2
        · have hlen : (xs.dropWhile jsIsSpace).length ≤ n := by
            have := (List.dropWhile_sublist jsIsSpace (l := xs)).length_le
            omega
          exact ih (xs.dropWhile jsIsSpace) hlen
      · rw [collapseWs_cons_not_space x xs (by simpa using hx)]
        rw [List.chain'_cons']
        constructor
        · intro y hy hcon
          exact hx hcon.1
        · exact ih xs hxs

theorem collapseWs_eq_self : ∀ (n : Nat) (l : List Char), l.length ≤ n →
    (∀ c ∈ l, jsIsSpace c = true → c = ' ') →
    List.Chain' (fun a b => ¬(jsIsSpace a = true ∧ jsIsSpace b = true)) l →
    collapseWs l = l := by
  intro n
  induction n with
  | zero =>
    intro l hl _ _
    rw [List.length_eq_zero.mp (Nat.le_zero.mp hl), collapseWs]
  | succ n ih =>
    intro l hl hsp hch
    cases l with
    | nil => rw [collapseWs]
    | cons x xs =>
      have hxs : xs.length ≤ n := by
        simp at hl
        omega
      by_cases hx : jsIsSpace x = true
      · rw [collapseWs_cons_space x xs hx]
        have hxsp : x = ' ' := hsp x (List.mem_cons_self x xs) hx
        cases xs with
        | nil => simp [collapseWs, hxsp]
        | cons y ys =>
          have hyns : jsIsSpace y = false := by
            rcases List.chain'_cons.mp hch with ⟨hr, -⟩
            by_cases hy : jsIsSpace y = true
            · exact absurd ⟨hx, hy⟩ hr
            · simpa using hy
          rw [List.dropWhile_cons, if_neg (by simp [hyns])]
          rw [ih (y :: ys) hxs (fun c hc => hsp c (List.mem_cons_of_mem x hc))
            (List.chain'_cons.mp hch).2]
          rw [hxsp]
      · rw [collapseWs_cons_not_space x xs (by simpa using hx)]
        rw [ih xs hxs (fun c hc => hsp c (List.mem_cons_of_mem x hc)) hch.tail]

theorem chain'_dropWhile {R : Char → Char → Prop} (p : Char → Bool) (l : List Char)
    (h : List.Chain' R l) : List.Chain' R (l.dropWhile p) := by
  induction l with
  | nil => simp
  | cons x xs ih =>
    rw [List.dropWhile_cons]
    by_cases hx : p x = true
    · rw [if_pos hx]
      exact ih h.tail
    · rw [if_neg hx]
      exact h

theorem chain'_trimStr {R : Char → Char → Prop} (hs : ∀ a b, R a b → R b a)
    (l : List Char) (h : List.Chain' R l) : List.Chain' R (trimStr l) := by
  unfold trimStr
  have h1 : List.Chain' R (l.dropWhile jsIsSpace) := chain'_dropWhile jsIsSpace l h
  have h2 : List.Chain' R (l.dropWhile jsIsSpace).reverse := by
    rw [List.chain'_reverse]
    exact h1.imp (fun a b hab => hs a b hab)
  have h3 : List.Chain' R ((l.dropWhile jsIsSpace).reverse.dropWhile jsIsSpace) :=
    chain'_dropWhile jsIsSpace _ h2
  rw [List.chain'_reverse]
  exact h3.imp (fun a b hab => hs a b hab)

theorem mem_trimStr (l : List Char) (c : Char) (h : c ∈ trimStr l) : c ∈ l := by
  unfold trimStr at h
  rw [List.mem_reverse] at h
  have h2 := (List.dropWhile_sublist jsIsSpace
    (l := (l.dropWhile jsIsSpace).reverse)).subset h
  rw [List.mem_reverse] at h2
  exact (List.dropWhile_sublist jsIsSpace (l := l)).subset h2

theorem map_toLower_fixed (l : List Char) (h : ∀ c ∈ l, c.toLower = c) :
    l.map Char.toLower = l := by
  induction l with
  | nil => rfl
  | cons x xs ih =>
    rw [List.map_cons, h x (List.mem_cons_self x xs),
      ih (fun c hc => h c (List.mem_cons_of_mem x hc))]

/-- C4 counterexample: normalizeName("! a") = " a" (stripping the punctuation
exposes a leading space that only the initial trim of a second pass would
remove), and normalizing again gives "a"; so normalizeName is not
idempotent. -/
theorem c4_counterexample :
    normalizeName (normalizeName (str "! a")) ≠ normalizeName (str "! a") := by
  have h1 : normalizeName (str "! a") = ' ' :: ['a'] := by
    unfold normalizeName
    rw [show ((trimStr (str "! a")).map Char.toLower).filter
        (fun c => jsKeep c || jsIsSpace c) = [' ', 'a'] from by decide]
    rw [collapseWs_cons_space _ _ (by decide)]
    rw [show (['a'].dropWhile jsIsSpace) = ['a'] from by decide]
    rw [collapseWs_cons_not_space _ _ (by decide), collapseWs]
  have h2 : normalizeName (' ' :: ['a']) = ['a'] := by
    unfold normalizeName
    rw [show ((trimStr (' ' :: ['a'])).map Char.toLower).filter
        (fun c => jsKeep c || jsIsSpace c) = ['a'] from by decide]
    rw [collapseWs_cons_not_space _ _ (by decide), collapseWs]
  rw [h1, h2]
  decide

/-- C4 (amended): applying normalizeName twice equals trimming its result
once — normalizeName(normalizeName(s)) = trim(normalizeName(s)) for every s —
so normalization is idempotent exactly on the inputs whose normalized form
has no leading or trailing whitespace (the counterexample "! a" shows a
leading space can survive one pass). -/
theorem c4_normalize_trim (l : List Char) :
    normalizeName (normalizeName l) = trimStr (normalizeName l) := by
  have hmem := collapseWs_mem
    (((trimStr l).map Char.toLower).filter (fun c => jsKeep c || jsIsSpace c)).length
    (((trimStr l).map Char.toLower).filter (fun c => jsKeep c || jsIsSpace c))
    (Nat.le_refl _)
  have hch := collapseWs_chain
    (((trimStr l).map Char.toLower).filter (fun c => jsKeep c || jsIsSpace c)).length
    (((trimStr l).map Char.toLower).filter (fun c => jsKeep c || jsIsSpace c))
    (Nat.le_refl _)
  have hmem2 : ∀ c ∈ trimStr (normalizeName l), c = ' ' ∨
      (c ∈ ((trimStr l).map Char.toLower).filter (fun c => jsKeep c || jsIsSpace c) ∧
        jsIsSpace c = false) :=
    fun c hc => hmem c (mem_trimStr _ c hc)
  have ht_lower : ∀ c ∈ trimStr (normalizeName l), c.toLower = c := by
    intro c hc
    rcases hmem2 c hc with rfl | ⟨hmem3, -⟩
    · decide
    · obtain ⟨c0, -, rfl⟩ := List.mem_map.mp (List.mem_of_mem_filter hmem3)
      exact toLower_idem c0
  have ht_pred : ∀ c ∈ trimStr (normalizeName l), (jsKeep c || jsIsSpace c) = true := by
    intro c hc
    rcases hmem2 c hc with rfl | ⟨hmem3, -⟩
    · decide
    · exact (List.mem_filter.mp hmem3).2
  have ht_space : ∀ c ∈ trimStr (normalizeName l), jsIsSpace c = true → c = ' ' := by
    intro c hc hsp
    rcases hmem2 c hc with rfl | ⟨-, hns⟩
    · rfl
    · rw [hsp] at hns
      exact absurd hns (by decide)
  have ht_chain : List.Chain'
      (fun a b => ¬(jsIsSpace a = true ∧ jsIsSpace b = true)) (trimStr (normalizeName l)) :=
    chain'_trimStr (fun a b hab hba => hab ⟨hba.2, hba.1⟩) (normalizeName l) hch
  show collapseWs (((trimStr (normalizeName l)).map Char.toLower).filter
      (fun c => jsKeep c || jsIsSpace c)) = trimStr (normalizeName l)
  rw [map_toLower_fixed _ ht_lower, List.filter_eq_self.mpr ht_pred]
  exact collapseWs_eq_self (trimStr (normalizeName l)).length _ (Nat.le_refl _)
    ht_space ht_chain

end Wedding
